import Mathlib

/-!
# Verification of the RepoCode-Hub backend core (`src/backend/server.py`)

A shallow embedding of the repository-ingestion-and-analysis pipeline:
the GitHub fetcher (`fetch_github_repo`), the heuristic flashcard
generator (`analyze_with_ai`), the background job orchestrator
(`process_repository_analysis`) and the HTTP endpoints
(`save_ai_config`, `get_ai_config`, `analyze_repository`, `get_analysis`).

Network and database effects are modelled by explicit parameters:
the GitHub tree response and the per-file content responses are oracles,
and the Mongo collections are in-memory lists threaded through the
endpoint functions.  `datetime.now()` and `uuid.uuid4()` are modelled as
parameters (`created_at`, fresh ids); the nondeterministic `id` field of
a flashcard is not modelled.  Python string slicing `s[:n]`, `.upper()`,
`.lower()`, `.split()` and `', '.join` are modelled character-for-character.
-/

set_option autoImplicit false

namespace RepoHub

/-- Python `s[:n]` : the first `n` characters of a string. -/
def strTake (s : String) (n : Nat) : String := ⟨s.data.take n⟩

/-- Python `s.lower()` (every string it is applied to here is ASCII,
where Python and `Char.toLower` agree). -/
def strLower (s : String) : String := ⟨s.data.map Char.toLower⟩

/-- Python `s.upper()` (ASCII, as above). -/
def strUpper (s : String) : String := ⟨s.data.map Char.toUpper⟩

@[simp] theorem strTake_length (s : String) (n : Nat) :
    (strTake s n).length ≤ n := by
  show (s.data.take n).length ≤ n
  exact List.length_take_le n s.data

/-- A source file as built by `fetch_github_repo`
(`{'path': ..., 'content': ..., 'language': ...}`). -/
structure SourceFile where
  path : String
  content : String
  language : String
  deriving Repr, DecidableEq

/-- A flashcard as built by `analyze_with_ai`.  The source also stores a
fresh `id` (`str(uuid.uuid4())`), which is nondeterministic and not
modelled here. -/
structure Flashcard where
  front : String
  back : String
  category : String
  difficulty : String
  code_snippet : Option String
  file_path : Option String
  deriving Repr, DecidableEq

/-- One entry of the GitHub tree response (`tree_data['tree']`);
only the `path` and `type` fields are consulted by the code. -/
structure TreeItem where
  path : String
  type : String
  deriving Repr, DecidableEq

/-- Outcome of the per-file content-retrieval call
(`session.get(content_url)`), abstracting the network:
`fail` is a non-200 response, `notBase64` a 200 response whose
`encoding` field is not `'base64'`, and `content text` a 200 response
whose base64 payload decodes (with `errors='ignore'`) to `text`. -/
inductive FileOutcome where
  | fail
  | notBase64
  | content (text : String)
  deriving Repr, DecidableEq

/-- The dictionary returned by `fetch_github_repo`. -/
structure RepoInfo where
  owner : String
  repo : String
  files : List SourceFile
  total_files : Nat
  deriving Repr, DecidableEq

/-! ## URL parsing: `re.search(r'github\.com/([^/]+)/([^/]+)', repo_url.replace('.git', ''))` -/

/-- Python `repo_url.replace('.git', '')`: delete every (non-overlapping,
left-to-right) occurrence of `.git`, anywhere in the string. -/
def removeGit : List Char → List Char
  | '.' :: 'g' :: 'i' :: 't' :: rest => removeGit rest
  | c :: rest => c :: removeGit rest
  | [] => []

/-- Drop the pattern `pat` from the front of `s`, if it is there. -/
def dropPat : List Char → List Char → Option (List Char)
  | [], s => some s
  | _ :: _, [] => none
  | p :: ps, c :: cs => if c = p then dropPat ps cs else none

/-- The literal part of the regex: `github.com/`. -/
def ghPat : List Char := "github.com/".data

/-- Match the group part `([^/]+)/([^/]+)` against `rest` (the text
after `github.com/`): group 1 is the maximal nonempty run of non-slash
characters, then the literal `/`, then group 2 is the maximal nonempty
run of non-slash characters.  A maximal run cannot cross a slash, so
greedy matching needs no backtracking, the consumed `/` is the first
slash of `rest`, and the text after group 2 is unconstrained. -/
def matchTail (rest : List Char) : Option (List Char × List Char) :=
  if rest.dropWhile (fun c => c ≠ '/') = [] then none
  else if rest.takeWhile (fun c => c ≠ '/') = [] then none
  else if ((rest.dropWhile (fun c => c ≠ '/')).tail).takeWhile (fun c => c ≠ '/') = [] then none
  else some (rest.takeWhile (fun c => c ≠ '/'),
    ((rest.dropWhile (fun c => c ≠ '/')).tail).takeWhile (fun c => c ≠ '/'))

/-- Attempt to match `github\.com/([^/]+)/([^/]+)` at the start of `s`. -/
def matchAt (s : List Char) : Option (List Char × List Char) :=
  (dropPat ghPat s).bind matchTail

/-- `re.search`: try `matchAt` at each position, leftmost first. -/
def searchGh : List Char → Option (List Char × List Char)
  | [] => none
  | c :: rest => (matchAt (c :: rest)).or (searchGh rest)

/-- The owner/repo extraction of `fetch_github_repo` (server.py line 138):
`re.search(r'github\.com/([^/]+)/([^/]+)', repo_url.replace('.git', ''))`. -/
def extractOwnerRepo (repo_url : String) : Option (String × String) :=
  match searchGh (removeGit repo_url.data) with
  | none => none
  | some (own, rep) => some (⟨own⟩, ⟨rep⟩)

/-! ## Extension filtering: `os.path.splitext(item['path'])[1].lower()` -/

/-- `os.path.splitext(p)[1]` (POSIX): the extension starts at the last
`.` of the final path component, provided some earlier character of that
component is not a dot (so `.bashrc` has no extension). -/
def splitextExt (p : String) : String :=
  let base := ((p.data.reverse.takeWhile (fun c => c ≠ '/')).reverse : List Char)
  let rev := base.reverse
  let afterDot := rev.takeWhile (fun c => c ≠ '.')
  match rev.dropWhile (fun c => c ≠ '.') with
  | [] => ""
  | _ :: before =>
    if before.any (fun c => c ≠ '.') then ⟨'.' :: afterDot.reverse⟩ else ""

/-- The allow-list `code_extensions` of `fetch_github_repo` (line 155). -/
def code_extensions : List String :=
  [".py", ".js", ".jsx", ".ts", ".tsx", ".java", ".cpp", ".c", ".go",
   ".rs", ".php", ".rb", ".swift", ".kt"]

/-- The lower-cased extension of a tree path (line 160). -/
def extOf (path : String) : String := strLower (splitextExt path)

/-- Whether a tree entry enters the per-file fetch loop (lines 159-161):
a blob whose lower-cased extension is in the allow-list. -/
def isMatching (item : TreeItem) : Bool :=
  item.type = "blob" && code_extensions.contains (extOf item.path)

/-- The `language` stored for a fetched file (line 173):
`ext[1:] if ext else 'text'`. -/
def languageOf (path : String) : String :=
  if extOf path = "" then "text" else ⟨(extOf path).data.drop 1⟩

/-- The file dictionary appended at lines 170-174. -/
def mkSourceFile (path text : String) : SourceFile :=
  { path := path, content := strTake text 5000, language := languageOf path }

/-- The file-collection loop of `fetch_github_repo` (lines 158-174):
matching entries whose content call returns 200 with base64 encoding are
decoded, truncated to 5000 characters and collected in tree order;
failing or non-base64 entries are skipped silently. -/
def collectFiles (tree : List TreeItem) (fetch : String → FileOutcome) :
    List SourceFile :=
  match tree with
  | [] => []
  | item :: rest =>
    if isMatching item then
      match fetch item.path with
      | .content text => mkSourceFile item.path text :: collectFiles rest fetch
      | _ => collectFiles rest fetch
    else collectFiles rest fetch

/-- The whole of `fetch_github_repo` (lines 134-184).  `treeResp` is the
tree request: `.error ()` is a non-200 response, `.ok tree` the parsed
`tree` array.  Errors carry the message of the `ValueError` re-raised at
line 184. -/
def fetch_github_repo (repo_url : String) (treeResp : Except Unit (List TreeItem))
    (fetch : String → FileOutcome) : Except String RepoInfo :=
  match extractOwnerRepo repo_url with
  | none => .error "Failed to fetch repository: Invalid GitHub repository URL"
  | some (owner, repo) =>
    match treeResp with
    | .error _ => .error "Failed to fetch repository: Repository not found or not accessible"
    | .ok tree =>
      let files := collectFiles tree fetch
      .ok { owner := owner, repo := repo,
            files := files.take 20, total_files := files.length }

/-! ## `analyze_with_ai` (lines 186-227): the heuristic flashcard generator -/

/-- Python `f['path'].split('/')[-1]`: the base name of a path. -/
def baseName (f : SourceFile) : String :=
  ⟨(f.path.data.reverse.takeWhile (fun c => c ≠ '/')).reverse⟩

/-- Python `', '.join(l)`. -/
def joinComma : List String → String
  | [] => ""
  | [x] => x
  | x :: r => x ++ ", " ++ joinComma r

/-- One step of the grouping loop (lines 194-199): a dictionary keyed by
language with insertion order, modelled as an association list. -/
def addToGroups (groups : List (String × List SourceFile)) (f : SourceFile) :
    List (String × List SourceFile) :=
  if groups.any (fun g => g.1 = f.language) then
    groups.map (fun g => if g.1 = f.language then (g.1, g.2 ++ [f]) else g)
  else groups ++ [(f.language, [f])]

/-- `languages` dictionary of `analyze_with_ai`: partition the files by
language, preserving first-seen order of languages and, within a
language, the order of the input list. -/
def groupFiles (files : List SourceFile) : List (String × List SourceFile) :=
  files.foldl addToGroups []

/-- The architecture-overview flashcard (lines 204-212). -/
def archCard (lang : String) (lang_files : List SourceFile) : Flashcard :=
  { front := "What is the overall architecture of this " ++ strUpper lang ++
      " application?"
    back := "This application uses " ++ strUpper lang ++ " with " ++
      toString lang_files.length ++ " files. Key components include: " ++
      joinComma ((lang_files.take 3).map baseName)
    category := "Architecture"
    difficulty := "Medium"
    code_snippet :=
      match lang_files with
      | [] => none
      | f0 :: _ => some (strTake f0.content 200)
    file_path :=
      match lang_files with
      | [] => none
      | f0 :: _ => some f0.path }

/-- The per-file flashcard (lines 216-225). -/
def fileCard (lang : String) (f : SourceFile) : Flashcard :=
  { front := "What is the purpose of " ++ baseName f ++ "?"
    back := "This file (" ++ f.path ++ ") contains " ++ lang ++
      " code and appears to handle core functionality. It\x27s part of the main application structure."
    category := strUpper lang ++ " Files"
    difficulty := "Easy"
    code_snippet := some (strTake f.content 300)
    file_path := some f.path }

/-- `analyze_with_ai` (lines 186-227): group the files by language, then
for each group append one architecture card followed by one card for each
of the first 3 files of the group.  The `config` argument of the source
is ignored by the stub generator. -/
def analyze_with_ai (files : List SourceFile) : List Flashcard :=
  (groupFiles files).foldl
    (fun acc g => (acc ++ [archCard g.1 g.2]) ++ (g.2.take 3).map (fileCard g.1))
    []

/-! ## Persistent state: the `ai_configs` and `analyses` collections -/

/-- A document of the `ai_configs` collection (lines 99-105; the
`created_at` timestamp is not consulted by any code and is omitted). -/
structure AIConfigDoc where
  user_id : String
  provider : String
  model : String
  api_key : String
  deriving Repr, DecidableEq

/-- An analysis job document (lines 280-289 plus the fields `$set` by the
background task).  `created_at` (`datetime.now()`) is an abstract tick. -/
structure Job where
  id : String
  repo_url : String
  user_id : String
  status : String
  created_at : Nat
  flashcards : List Flashcard
  total_files : Nat
  languages : List String
  error : Option String
  deriving Repr, DecidableEq

/-- The two Mongo collections used by the endpoints. -/
structure Store where
  ai_configs : List AIConfigDoc
  analyses : List Job
  deriving Repr, DecidableEq

/-- `db.ai_configs.find_one({"user_id": user_id})`. -/
def findConfig (store : Store) (user_id : String) : Option AIConfigDoc :=
  store.ai_configs.find? (fun c => c.user_id = user_id)

/-- `db.ai_configs.replace_one({"user_id": ...}, doc, upsert=True)`:
replace the first document with this `user_id`, or append. -/
def upsertConfig : List AIConfigDoc → AIConfigDoc → List AIConfigDoc
  | [], doc => [doc]
  | c :: rest, doc =>
    if c.user_id = doc.user_id then doc :: rest else c :: upsertConfig rest doc

/-- The job document created by `analyze_repository` (lines 280-289). -/
def createJob (analysis_id repo_url user_id : String) (now : Nat) : Job :=
  { id := analysis_id, repo_url := repo_url, user_id := user_id,
    status := "queued", created_at := now, flashcards := [],
    total_files := 0, languages := [], error := none }

/-! ## `process_repository_analysis` (lines 232-267): the background task -/

/-- The `$set {"status": "processing"}` write (lines 236-239). -/
def setProcessing (j : Job) : Job := { j with status := "processing" }

/-- The `$set {"status": "failed", "error": ...}` write (lines 264-267). -/
def setFailed (msg : String) (j : Job) : Job :=
  { j with status := "failed", error := some msg }

/-- The success write (lines 253-261): set `status`, `flashcards`,
`total_files` and `languages`.  `list(set([f['language'] for f in
repo_data['files']]))` iterates a Python set, whose order is unspecified;
it is modelled as first-occurrence order (`eraseDups`). -/
def setCompleted (info : RepoInfo) (j : Job) : Job :=
  { j with
    status := "completed"
    flashcards := analyze_with_ai info.files
    total_files := info.total_files
    languages := (info.files.map SourceFile.language).eraseDups }

/-- The sequence of writes `process_repository_analysis` issues against
the job record, in program order: first `processing`, then exactly one of
the success write or the failure write.  `config` is the result of the
`ai_configs` lookup at line 242; missing configuration raises
`ValueError("AI configuration not found")`, caught at line 263. -/
def processWrites (config : Option AIConfigDoc)
    (fetched : Except String RepoInfo) : List (Job → Job) :=
  setProcessing ::
    match config with
    | none => [setFailed "AI configuration not found"]
    | some _ =>
      match fetched with
      | .error e => [setFailed e]
      | .ok info => [setCompleted info]

/-- Apply a sequence of record writes to a job document. -/
def applyWrites (ws : List (Job → Job)) (j : Job) : Job :=
  ws.foldl (fun j w => w j) j

/-- `process_repository_analysis` as a state transformer on the job
record: the repository fetch is `fetch_github_repo j.repo_url`, with the
network abstracted by `treeResp` and `fetch`. -/
def process_repository_analysis (j : Job) (config : Option AIConfigDoc)
    (treeResp : Except Unit (List TreeItem)) (fetch : String → FileOutcome) :
    Job :=
  applyWrites (processWrites config (fetch_github_repo j.repo_url treeResp fetch)) j

/-- The `status` field after each successive write, starting from the
freshly created record: the observable status history of a job. -/
def statusTrace (j : Job) (config : Option AIConfigDoc)
    (treeResp : Except Unit (List TreeItem)) (fetch : String → FileOutcome) :
    List String :=
  ((processWrites config (fetch_github_repo j.repo_url treeResp fetch)).scanl
    (fun j w => w j) j).map Job.status

/-! ## The HTTP endpoints

Each handler body runs inside `try: ... except Exception as e: raise
HTTPException(status_code=500, detail=<prefix> + str(e))`.  FastAPI's
`HTTPException` is itself a subclass of `Exception`, so an
`HTTPException` raised inside the `try` body is caught by that handler
and re-raised as a 500 whose detail embeds `str(e)` (which renders as
`"<code>: <detail>"`).  The wrapper `wrapTry` reproduces this. -/

/-- An in-flight `HTTPException(status_code=..., detail=...)`. -/
structure HttpExc where
  status : Nat
  detail : String
  deriving Repr, DecidableEq

/-- Python `str(e)` for an `HTTPException`. -/
def strExc (e : HttpExc) : String := toString e.status ++ ": " ++ e.detail

/-- The value a route handler finally produces: a success body or an
`HTTPException` escaping to the client. -/
inductive ApiResult (α : Type) where
  | ok (value : α)
  | err (status : Nat) (detail : String)
  deriving Repr, DecidableEq

/-- The `except Exception` clause shared by the handlers: a body that
raised (modelled as `.error e`) is converted into a 500 response and the
store is left as it was when the exception was raised. -/
def wrapTry {α : Type} (wrapMsg : String) (store : Store)
    (body : Except HttpExc (α × Store)) : ApiResult α × Store :=
  match body with
  | .ok (v, s) => (.ok v, s)
  | .error e => (.err 500 (wrapMsg ++ strExc e), store)

/-- The static `AI_MODELS` catalog (lines 62-79):
provider → list of (model id, display name). -/
def AI_MODELS : List (String × List (String × String)) :=
  [("openai",
    [("gpt-4o", "GPT-4o"), ("gpt-4.1", "GPT-4.1"),
     ("gpt-4o-mini", "GPT-4o Mini"), ("o3-mini", "O3 Mini")]),
   ("anthropic",
    [("claude-sonnet-4-20250514", "Claude Sonnet 4"),
     ("claude-3-5-sonnet-20241022", "Claude 3.5 Sonnet"),
     ("claude-3-5-haiku-20241022", "Claude 3.5 Haiku")]),
   ("gemini",
    [("gemini-2.0-flash", "Gemini 2.0 Flash"),
     ("gemini-1.5-pro", "Gemini 1.5 Pro"),
     ("gemini-1.5-flash", "Gemini 1.5 Flash")])]

/-- Line 95: `config.provider in AI_MODELS and config.model in
AI_MODELS[config.provider]`. -/
def modelValid (provider model : String) : Bool :=
  match AI_MODELS.find? (fun p => p.1 = provider) with
  | none => false
  | some (_, models) => models.any (fun m => m.1 = model)

/-- `AI_MODELS[provider][model]` (line 129); `none` is a `KeyError`. -/
def displayName (provider model : String) : Option String :=
  match AI_MODELS.find? (fun p => p.1 = provider) with
  | none => none
  | some (_, models) =>
    match models.find? (fun m => m.1 = model) with
    | none => none
    | some (_, name) => some name

/-- The `try` body of `save_ai_config` (lines 93-113). -/
def save_ai_config_body (store : Store) (config : AIConfigDoc) :
    Except HttpExc (String × Store) :=
  if modelValid config.provider config.model then
    .ok ("AI configuration saved successfully",
      { store with ai_configs := upsertConfig store.ai_configs config })
  else
    .error ⟨400, "Invalid AI model selection"⟩

/-- `POST /api/ai-config` (lines 90-115). -/
def save_ai_config (store : Store) (config : AIConfigDoc) :
    ApiResult String × Store :=
  wrapTry "Failed to save configuration: " store (save_ai_config_body store config)

/-- The response of `GET /api/ai-config/{user_id}` when configured. -/
structure ConfigView where
  configured : Bool
  provider : Option String
  model : Option String
  model_name : Option String
  deriving Repr, DecidableEq

/-- `GET /api/ai-config/{user_id}` (lines 117-132).  A catalog miss in
`AI_MODELS[provider][model]` is a `KeyError`, caught and rewrapped by the
handler's `except` clause. -/
def get_ai_config (store : Store) (user_id : String) : ApiResult ConfigView :=
  match findConfig store user_id with
  | none => .ok ⟨false, none, none, none⟩
  | some c =>
    match displayName c.provider c.model with
    | some name => .ok ⟨true, some c.provider, some c.model, some name⟩
    | none => .err 500 "Failed to get configuration: KeyError"

/-- The success body of `POST /api/analyze-repository` (line 296). -/
structure SubmitResp where
  analysis_id : String
  status : String
  message : String
  deriving Repr, DecidableEq

/-- The `try` body of `analyze_repository` (lines 272-296): reject when
no configuration exists for the user (line 276), otherwise insert a fresh
`queued` job record and schedule the background task.  `new_id` models
`str(uuid.uuid4())` and `now` models `datetime.now()`. -/
def analyze_repository_body (store : Store) (repo_url user_id : String)
    (new_id : String) (now : Nat) : Except HttpExc (SubmitResp × Store) :=
  match findConfig store user_id with
  | none =>
    .error ⟨400, "AI configuration required. Please configure AI model first."⟩
  | some _ =>
    .ok (⟨new_id, "queued", "Repository analysis started"⟩,
      { store with analyses := store.analyses ++ [createJob new_id repo_url user_id now] })

/-- `POST /api/analyze-repository` (lines 269-299). -/
def analyze_repository (store : Store) (repo_url user_id : String)
    (new_id : String) (now : Nat) : ApiResult SubmitResp × Store :=
  wrapTry "Failed to start analysis: " store
    (analyze_repository_body store repo_url user_id new_id now)

/-- The snapshot returned by `GET /api/analysis/{analysis_id}`
(lines 309-318). -/
structure AnalysisView where
  id : String
  repo_url : String
  status : String
  created_at : Nat
  flashcards : List Flashcard
  total_files : Nat
  languages : List String
  error : Option String
  deriving Repr, DecidableEq

/-- The `try` body of `get_analysis` (lines 304-318). -/
def get_analysis_body (store : Store) (analysis_id : String) :
    Except HttpExc AnalysisView :=
  match store.analyses.find? (fun j => j.id = analysis_id) with
  | none => .error ⟨404, "Analysis not found"⟩
  | some j =>
    .ok ⟨j.id, j.repo_url, j.status, j.created_at, j.flashcards,
      j.total_files, j.languages, j.error⟩

/-- `GET /api/analysis/{analysis_id}` (lines 301-321): a pure read (no
store is returned because the handler never writes one). -/
def get_analysis (store : Store) (analysis_id : String) :
    ApiResult AnalysisView :=
  match get_analysis_body store analysis_id with
  | .ok v => .ok v
  | .error e => .err 500 ("Failed to get analysis: " ++ strExc e)

/-! ## Claim-side definitions -/

/-- The number of entries of the tree that pass the blob/extension
filter: the "matching files found in the tree" of the specification,
counted before any content-retrieval call is made. -/
def matchingCount (tree : List TreeItem) : Nat :=
  (tree.filter isMatching).length

/-- The matching entries whose content call succeeded with a base64
payload, in tree order, with contents truncated to 5000 characters: the
"successfully fetched matching files" of the specification. -/
def fetchedFiles (tree : List TreeItem) (fetch : String → FileOutcome) :
    List SourceFile :=
  tree.filterMap (fun item =>
    if isMatching item then
      match fetch item.path with
      | .content text => some (mkSourceFile item.path text)
      | _ => none
    else none)

theorem collectFiles_eq_fetchedFiles (tree : List TreeItem)
    (fetch : String → FileOutcome) :
    collectFiles tree fetch = fetchedFiles tree fetch := by
  induction tree with
  | nil => rfl
  | cons item rest ih =>
    simp only [collectFiles, fetchedFiles, List.filterMap_cons]
    by_cases h : isMatching item = true
    · simp only [h, if_pos]
      cases fetch item.path <;> simpa [fetchedFiles] using ih
    · simp only [Bool.not_eq_true] at h
      simpa [collectFiles, fetchedFiles, h] using ih

/-! ## C3: job status lifecycle -/

/-- C3: for every job, the observable status history is exactly
`queued`, then `processing`, then exactly one of `completed` or
`failed`; in particular no write changes a terminal status and no
terminal status is reached without passing through `processing`. -/
theorem job_status_lifecycle (analysis_id repo_url user_id : String)
    (now : Nat) (config : Option AIConfigDoc)
    (treeResp : Except Unit (List TreeItem)) (fetch : String → FileOutcome) :
    statusTrace (createJob analysis_id repo_url user_id now) config treeResp fetch =
      ["queued", "processing", "completed"] ∨
    statusTrace (createJob analysis_id repo_url user_id now) config treeResp fetch =
      ["queued", "processing", "failed"] := by
  cases config with
  | none => right; rfl
  | some c =>
    cases hf : fetch_github_repo repo_url treeResp fetch with
    | error e =>
      right
      simp [statusTrace, processWrites, hf, createJob, setProcessing, setFailed]
    | ok info =>
      left
      simp [statusTrace, processWrites, hf, createJob, setProcessing, setCompleted]

/-! ## C5, C6, C7: endpoint rejection behaviour

In the source the explicit `HTTPException(400/404)` raised inside each
`try` block is caught by that handler's own `except Exception` clause and
re-raised as a 500 (`HTTPException` subclasses `Exception`), so the
client observes status 500, not the 400/404 the raising line intends; the
repository's own test (`backend_test.py`, "Invalid AI Config Handling")
expects 400.  The theorems below evaluate the embedded handlers at the
failing inputs. -/

/-- C5: a `POST /analyze-repository` for a user with no stored AI
configuration creates no job record, but the client receives HTTP 500
(wrapping the intended 400), not 400. -/
theorem missing_config_rejected_eval :
    analyze_repository ⟨[], []⟩ "https://github.com/a/b" "u1" "id1" 0 =
      (.err 500 "Failed to start analysis: 400: AI configuration required. Please configure AI model first.",
       ⟨[], []⟩) := rfl

/-- C6: a `POST /ai-config` whose model is not in the catalog under the
given provider writes no configuration record and a subsequent GET
returns `configured: false`, but the client receives HTTP 500 (wrapping
the intended 400), not 400. -/
theorem invalid_model_rejected_eval :
    save_ai_config ⟨[], []⟩ ⟨"u1", "invalid_provider", "invalid_model", "k"⟩ =
      (.err 500 "Failed to save configuration: 400: Invalid AI model selection",
       ⟨[], []⟩) ∧
    get_ai_config (save_ai_config ⟨[], []⟩ ⟨"u1", "invalid_provider", "invalid_model", "k"⟩).2 "u1" =
      .ok ⟨false, none, none, none⟩ :=
  ⟨rfl, rfl⟩

/-- A stored job used to evaluate `get_analysis`. -/
def sampleJob : Job := createJob "j1" "https://github.com/a/b" "u1" 5

/-- C7: a `GET /analysis/{id}` with an unknown id yields HTTP 500
(wrapping the intended 404), not 404; for a stored job the handler is a
pure read (it takes the store by value and returns only a snapshot)
returning the job snapshot. -/
theorem get_analysis_unknown_id_eval :
    get_analysis ⟨[], [sampleJob]⟩ "missing" =
      .err 500 "Failed to get analysis: 404: Analysis not found" ∧
    get_analysis ⟨[], [sampleJob]⟩ "j1" =
      .ok ⟨"j1", "https://github.com/a/b", "queued", 5, [], 0, [], none⟩ :=
  ⟨rfl, rfl⟩

/-! ## C2: fetch budgets and `total_files` -/

/-- C2 (counterexample): a tree holding one matching file whose content
call fails yields a successful fetch with `total_files = 0`, while the
tree contains 1 matching file — so `total_files` does **not** equal the
count of all matching files found in the tree. -/
theorem total_files_counterexample :
    fetch_github_repo "https://github.com/a/b" (.ok [⟨"a.py", "blob"⟩])
      (fun _ => .fail) =
      .ok { owner := "a", repo := "b", files := [], total_files := 0 } ∧
    matchingCount [⟨"a.py", "blob"⟩] = 1 :=
  ⟨rfl, rfl⟩

/-- C2 (amended): every successful fetch returns as `files` at most the
first 20 successfully fetched matching files in tree order, each
truncated to its first 5000 characters, and `total_files` equals the
pre-truncation count of the *successfully fetched* matching files (not
of all matching tree entries), so `total_files` may exceed
`files.length`. -/
theorem fetch_budget_amended (repo_url : String)
    (treeResp : Except Unit (List TreeItem)) (fetch : String → FileOutcome)
    (info : RepoInfo)
    (h : fetch_github_repo repo_url treeResp fetch = .ok info) :
    (∃ tree, treeResp = .ok tree ∧
      info.files = (fetchedFiles tree fetch).take 20 ∧
      info.total_files = (fetchedFiles tree fetch).length) ∧
    info.files.length ≤ 20 ∧
    info.files.length ≤ info.total_files ∧
    ∀ f ∈ info.files, f.content.length ≤ 5000 := by
  unfold fetch_github_repo at h
  rcases he : extractOwnerRepo repo_url with _ | ⟨owner, repo⟩ <;> rw [he] at h
  · exact absurd h (by simp)
  · cases treeResp with
    | error u => exact absurd h (by simp)
    | ok tree =>
      simp only [Except.ok.injEq] at h
      subst h
      refine ⟨⟨tree, rfl, by simp [collectFiles_eq_fetchedFiles], by simp [collectFiles_eq_fetchedFiles]⟩, ?_, ?_, ?_⟩
      · exact List.length_take_le 20 _
      · simpa using List.length_take_le' 20 (collectFiles tree fetch)
      · intro f hf
        have hf' : f ∈ fetchedFiles tree fetch := by
          have := List.take_subset 20 (collectFiles tree fetch) hf
          rwa [collectFiles_eq_fetchedFiles] at this
        rcases List.mem_filterMap.mp hf' with ⟨item, _, hsome⟩
        by_cases hm : isMatching item = true
        · rw [if_pos hm] at hsome
          rcases hfo : fetch item.path with _ | _ | text <;> rw [hfo] at hsome
          · exact absurd hsome (by simp)
          · exact absurd hsome (by simp)
          · simp only [Option.some.injEq] at hsome
            subst hsome
            exact strTake_length text 5000
        · rw [if_neg hm] at hsome
          exact absurd hsome (by simp)

/-- A concrete two-file tree used to instantiate `fetch_budget_amended`. -/
def wTree : List TreeItem := [⟨"a.py", "blob"⟩, ⟨"b.js", "blob"⟩]

/-- A content oracle that answers every path with `hello`. -/
def wFetch : String → FileOutcome := fun _ => .content "hello"

/-- The fetch result for `wTree` under `wFetch`. -/
def wInfo : RepoInfo :=
  ⟨"a", "b", [⟨"a.py", "hello", "py"⟩, ⟨"b.js", "hello", "js"⟩], 2⟩

/-- C2 witness: a successful two-file fetch. -/
theorem fetch_budget_amended_witness :
    fetch_github_repo "https://github.com/a/b" (.ok wTree) wFetch = .ok wInfo ∧
    ((∃ tree, (Except.ok wTree : Except Unit (List TreeItem)) = .ok tree ∧
        wInfo.files = (fetchedFiles tree wFetch).take 20 ∧
        wInfo.total_files = (fetchedFiles tree wFetch).length) ∧
      wInfo.files.length ≤ 20 ∧
      wInfo.files.length ≤ wInfo.total_files ∧
      ∀ f ∈ wInfo.files, f.content.length ≤ 5000) :=
  ⟨rfl, fetch_budget_amended "https://github.com/a/b" (.ok wTree) wFetch wInfo rfl⟩

/-! ## C9: per-file failures are skipped, not fatal -/

theorem collectFiles_skip (t₁ t₂ : List TreeItem) (item : TreeItem)
    (fetch : String → FileOutcome) (hfail : fetch item.path = .fail) :
    collectFiles (t₁ ++ item :: t₂) fetch = collectFiles (t₁ ++ t₂) fetch := by
  induction t₁ with
  | nil =>
    simp only [List.nil_append, collectFiles, hfail]
    by_cases hm : isMatching item = true <;> simp [hm]
  | cons hd tl ih =>
    simp only [List.cons_append, collectFiles]
    by_cases hm : isMatching hd = true
    · cases fetch hd.path <;> simp [hm, ih]
    · simp only [Bool.not_eq_true] at hm
      simp [hm, ih]

/-- C9: a matching tree entry whose individual content-retrieval call
fails is silently skipped: the fetch result is identical to the fetch of
the tree without that entry, and the fetch as a whole still succeeds
with the remaining files. -/
theorem per_file_failure_nonfatal (repo_url : String)
    (t₁ t₂ : List TreeItem) (item : TreeItem)
    (fetch : String → FileOutcome) (owner repo : String)
    (hurl : extractOwnerRepo repo_url = some (owner, repo))
    (hmatch : isMatching item = true)
    (hfail : fetch item.path = .fail) :
    fetch_github_repo repo_url (.ok (t₁ ++ item :: t₂)) fetch =
      fetch_github_repo repo_url (.ok (t₁ ++ t₂)) fetch ∧
    fetch_github_repo repo_url (.ok (t₁ ++ item :: t₂)) fetch =
      .ok { owner := owner, repo := repo,
            files := (collectFiles (t₁ ++ t₂) fetch).take 20,
            total_files := (collectFiles (t₁ ++ t₂) fetch).length } := by
  have hskip := collectFiles_skip t₁ t₂ item fetch hfail
  constructor <;> simp [fetch_github_repo, hurl, hskip]

/-- C9 witness: a concrete two-entry tree whose first matching file is
unreachable. -/
theorem per_file_failure_nonfatal_witness :
    extractOwnerRepo "https://github.com/a/b" = some ("a", "b") ∧
    isMatching ⟨"bad.py", "blob"⟩ = true ∧
    (fun p => if p = "bad.py" then FileOutcome.fail else .content "x") "bad.py" = .fail ∧
    (fetch_github_repo "https://github.com/a/b"
        (.ok ([] ++ (⟨"bad.py", "blob"⟩ : TreeItem) :: [⟨"good.py", "blob"⟩]))
        (fun p => if p = "bad.py" then FileOutcome.fail else .content "x") =
      fetch_github_repo "https://github.com/a/b" (.ok ([] ++ [⟨"good.py", "blob"⟩]))
        (fun p => if p = "bad.py" then FileOutcome.fail else .content "x") ∧
    fetch_github_repo "https://github.com/a/b"
        (.ok ([] ++ (⟨"bad.py", "blob"⟩ : TreeItem) :: [⟨"good.py", "blob"⟩]))
        (fun p => if p = "bad.py" then FileOutcome.fail else .content "x") =
      .ok { owner := "a", repo := "b",
            files := (collectFiles ([] ++ [⟨"good.py", "blob"⟩])
              (fun p => if p = "bad.py" then FileOutcome.fail else .content "x")).take 20,
            total_files := (collectFiles ([] ++ [⟨"good.py", "blob"⟩])
              (fun p => if p = "bad.py" then FileOutcome.fail else .content "x")).length }) :=
  ⟨rfl, rfl, rfl,
    per_file_failure_nonfatal "https://github.com/a/b" [] [⟨"good.py", "blob"⟩]
      ⟨"bad.py", "blob"⟩ _ "a" "b" rfl rfl rfl⟩

/-! ## C4: failures set `failed` with an error message, flashcards stay empty -/

theorem fetch_error_ne_empty (repo_url : String)
    (treeResp : Except Unit (List TreeItem)) (fetch : String → FileOutcome)
    (e : String) (h : fetch_github_repo repo_url treeResp fetch = .error e) :
    e ≠ "" := by
  unfold fetch_github_repo at h
  rcases he : extractOwnerRepo repo_url with _ | ⟨owner, repo⟩ <;> rw [he] at h
  · simp only [Except.error.injEq] at h
    subst h; decide
  · cases treeResp with
    | error u =>
      simp only [Except.error.injEq] at h
      subst h; decide
    | ok tree => simp at h

/-- C4: when background processing fails — the configuration lookup
finds nothing, or the repository fetch raises — the job record ends with
status `failed` and a non-empty error string, and its `flashcards` field
is still the empty list it was created with. -/
theorem failure_sets_failed (analysis_id repo_url user_id : String)
    (now : Nat) (config : Option AIConfigDoc)
    (treeResp : Except Unit (List TreeItem)) (fetch : String → FileOutcome)
    (h : config = none ∨
      ∃ e, fetch_github_repo repo_url treeResp fetch = .error e) :
    (process_repository_analysis (createJob analysis_id repo_url user_id now)
      config treeResp fetch).status = "failed" ∧
    (∃ m, (process_repository_analysis (createJob analysis_id repo_url user_id now)
      config treeResp fetch).error = some m ∧ m ≠ "") ∧
    (process_repository_analysis (createJob analysis_id repo_url user_id now)
      config treeResp fetch).flashcards = [] := by
  rcases h with h | ⟨e, h⟩
  · subst h
    refine ⟨rfl, ⟨"AI configuration not found", rfl, by decide⟩, rfl⟩
  · cases config with
    | none => exact ⟨rfl, ⟨"AI configuration not found", rfl, by decide⟩, rfl⟩
    | some c =>
      have hne := fetch_error_ne_empty repo_url treeResp fetch e h
      refine ⟨?_, ⟨e, ?_, hne⟩, ?_⟩ <;>
        simp [process_repository_analysis, processWrites, h, applyWrites,
          createJob, setProcessing, setFailed]

/-- C4 witness: a fetch of a malformed repository URL with no other
obstruction. -/
theorem failure_sets_failed_witness :
    ((none : Option AIConfigDoc) = none ∨
      ∃ e, fetch_github_repo "https://github.com/a/b" (.error ()) (fun _ => .fail) = .error e) ∧
    ((process_repository_analysis (createJob "j1" "https://github.com/a/b" "u1" 0)
      none (.error ()) (fun _ => .fail)).status = "failed" ∧
    (∃ m, (process_repository_analysis (createJob "j1" "https://github.com/a/b" "u1" 0)
      none (.error ()) (fun _ => .fail)).error = some m ∧ m ≠ "") ∧
    (process_repository_analysis (createJob "j1" "https://github.com/a/b" "u1" 0)
      none (.error ()) (fun _ => .fail)).flashcards = []) :=
  ⟨Or.inl rfl,
    failure_sets_failed "j1" "https://github.com/a/b" "u1" 0 none (.error ())
      (fun _ => .fail) (Or.inl rfl)⟩

/-! ## C10: a repository with no matching files completes with empty results -/

theorem collectFiles_nil_of_no_match (tree : List TreeItem)
    (fetch : String → FileOutcome)
    (h : ∀ item ∈ tree, isMatching item = false) :
    collectFiles tree fetch = [] := by
  induction tree with
  | nil => rfl
  | cons item rest ih =>
    have hi := h item (List.mem_cons_self item rest)
    simp only [collectFiles, hi, Bool.false_eq_true, if_false]
    exact ih (fun it hit => h it (List.mem_cons_of_mem item hit))

/-- C10: when no tree entry matches the extension allow-list, the fetch
succeeds with no files and `total_files = 0`, the analysis of the empty
list is the empty flashcard list, and the job completes with empty
`flashcards`, `languages` and zero `total_files` instead of failing. -/
theorem no_matching_files_completes (analysis_id repo_url user_id : String)
    (now : Nat) (c : AIConfigDoc) (tree : List TreeItem)
    (fetch : String → FileOutcome) (owner repo : String)
    (hurl : extractOwnerRepo repo_url = some (owner, repo))
    (hmatch : ∀ item ∈ tree, isMatching item = false) :
    fetch_github_repo repo_url (.ok tree) fetch =
      .ok { owner := owner, repo := repo, files := [], total_files := 0 } ∧
    analyze_with_ai [] = [] ∧
    (process_repository_analysis (createJob analysis_id repo_url user_id now)
      (some c) (.ok tree) fetch).status = "completed" ∧
    (process_repository_analysis (createJob analysis_id repo_url user_id now)
      (some c) (.ok tree) fetch).flashcards = [] ∧
    (process_repository_analysis (createJob analysis_id repo_url user_id now)
      (some c) (.ok tree) fetch).languages = [] ∧
    (process_repository_analysis (createJob analysis_id repo_url user_id now)
      (some c) (.ok tree) fetch).total_files = 0 := by
  have hnil := collectFiles_nil_of_no_match tree fetch hmatch
  have hfetch : fetch_github_repo repo_url (.ok tree) fetch =
      .ok { owner := owner, repo := repo, files := [], total_files := 0 } := by
    simp [fetch_github_repo, hurl, hnil]
  refine ⟨hfetch, rfl, ?_, ?_, ?_, ?_⟩ <;>
    simp [process_repository_analysis, processWrites, hfetch, applyWrites,
      createJob, setProcessing, setCompleted, analyze_with_ai, groupFiles,
      List.eraseDups, List.eraseDups.loop]

/-- C10 witness: a tree holding only a README, which matches no
allow-listed extension. -/
theorem no_matching_files_completes_witness :
    extractOwnerRepo "https://github.com/a/b" = some ("a", "b") ∧
    (∀ item ∈ ([⟨"README.md", "blob"⟩] : List TreeItem), isMatching item = false) ∧
    (fetch_github_repo "https://github.com/a/b" (.ok [⟨"README.md", "blob"⟩]) (fun _ => .content "x") =
      .ok { owner := "a", repo := "b", files := [], total_files := 0 } ∧
    analyze_with_ai [] = [] ∧
    (process_repository_analysis (createJob "j1" "https://github.com/a/b" "u1" 0)
      (some ⟨"u1", "openai", "gpt-4o", "k"⟩) (.ok [⟨"README.md", "blob"⟩]) (fun _ => .content "x")).status = "completed" ∧
    (process_repository_analysis (createJob "j1" "https://github.com/a/b" "u1" 0)
      (some ⟨"u1", "openai", "gpt-4o", "k"⟩) (.ok [⟨"README.md", "blob"⟩]) (fun _ => .content "x")).flashcards = [] ∧
    (process_repository_analysis (createJob "j1" "https://github.com/a/b" "u1" 0)
      (some ⟨"u1", "openai", "gpt-4o", "k"⟩) (.ok [⟨"README.md", "blob"⟩]) (fun _ => .content "x")).languages = [] ∧
    (process_repository_analysis (createJob "j1" "https://github.com/a/b" "u1" 0)
      (some ⟨"u1", "openai", "gpt-4o", "k"⟩) (.ok [⟨"README.md", "blob"⟩]) (fun _ => .content "x")).total_files = 0) :=
  ⟨rfl, by decide,
    no_matching_files_completes "j1" "https://github.com/a/b" "u1" 0
      ⟨"u1", "openai", "gpt-4o", "k"⟩ [⟨"README.md", "blob"⟩]
      (fun _ => .content "x") "a" "b" rfl (by decide)⟩

/-! ## C8: when URL parsing succeeds -/

theorem dropPat_eq_append {p s r : List Char} (h : dropPat p s = some r) :
    s = p ++ r := by
  induction p generalizing s with
  | nil =>
    simp only [dropPat, Option.some.injEq] at h
    simp [h]
  | cons x xs ih =>
    cases s with
    | nil => simp [dropPat] at h
    | cons c cs =>
      by_cases hc : c = x
      · subst hc
        simp only [dropPat, if_pos rfl] at h
        simp [ih h]
      · simp [dropPat, hc] at h

theorem dropPat_append (p t : List Char) : dropPat p (p ++ t) = some t := by
  induction p with
  | nil => rfl
  | cons x xs ih => simp [dropPat, ih]

theorem dropWhile_head_false {p : Char → Bool} {l : List Char} {x : Char}
    {xs : List Char} (h : l.dropWhile p = x :: xs) : p x = false := by
  induction l with
  | nil => simp [List.dropWhile] at h
  | cons c cs ih =>
    rw [List.dropWhile_cons] at h
    by_cases hc : p c = true
    · rw [if_pos hc] at h; exact ih h
    · rw [if_neg hc] at h
      cases h
      simpa using hc

theorem takeWhile_append_sat {p : Char → Bool} (own : List Char) (y : Char)
    (ys : List Char) (hown : ∀ c ∈ own, p c = true) (hy : p y = false) :
    (own ++ y :: ys).takeWhile p = own ∧ (own ++ y :: ys).dropWhile p = y :: ys := by
  induction own with
  | nil => simp [List.takeWhile_cons, List.dropWhile_cons, hy]
  | cons a as ih =>
    have ha : p a = true := hown a (by simp)
    have ih' := ih (fun c hc => hown c (by simp [hc]))
    simp [List.takeWhile_cons, List.dropWhile_cons, ha, ih'.1, ih'.2]

theorem matchTail_isSome_iff (rest : List Char) :
    (matchTail rest).isSome = true ↔
      ∃ own c r, rest = own ++ '/' :: c :: r ∧ own ≠ [] ∧
        (∀ ch ∈ own, ch ≠ '/') ∧ c ≠ '/' := by
  constructor
  · intro h
    unfold matchTail at h
    by_cases h0 : rest.dropWhile (fun c => c ≠ '/') = []
    · rw [if_pos h0] at h; simp at h
    · rw [if_neg h0] at h
      by_cases h1 : rest.takeWhile (fun c => c ≠ '/') = []
      · rw [if_pos h1] at h; simp at h
      · rw [if_neg h1] at h
        by_cases h2 : ((rest.dropWhile (fun c => c ≠ '/')).tail).takeWhile (fun c => c ≠ '/') = []
        · rw [if_pos h2] at h; simp at h
        · rcases hw : rest.dropWhile (fun c => c ≠ '/') with _ | ⟨d, r2⟩
          · exact absurd hw h0
          · have hd : d = '/' := by simpa using dropWhile_head_false hw
            subst hd
            have hsplit : rest.takeWhile (fun c => c ≠ '/') ++ '/' :: r2 = rest := by
              rw [← hw]; exact List.takeWhile_append_dropWhile _ _
            rcases r2 with _ | ⟨c, r3⟩
            · rw [hw] at h2; simp at h2
            · have hc : c ≠ '/' := by
                intro hcc
                subst hcc
                rw [hw] at h2
                simp [List.takeWhile_cons] at h2
              exact ⟨rest.takeWhile (fun c => c ≠ '/'), c, r3, hsplit.symm, h1,
                fun ch hch => by simpa using List.mem_takeWhile_imp hch, hc⟩
  · rintro ⟨own, c, r, hs, hown, hsl, hc⟩
    have hsl' : ∀ ch ∈ own, (fun ch => decide (ch ≠ '/')) ch = true := by
      intro ch hch; simpa using hsl ch hch
    have hsat := takeWhile_append_sat own '/' (c :: r) hsl' (by simp)
    subst hs
    unfold matchTail
    rw [hsat.1, hsat.2]
    simp [List.takeWhile_cons, hown, hc]

theorem matchAt_isSome_iff (s : List Char) :
    (matchAt s).isSome = true ↔
      ∃ own c r, s = ghPat ++ own ++ '/' :: c :: r ∧ own ≠ [] ∧
        (∀ ch ∈ own, ch ≠ '/') ∧ c ≠ '/' := by
  unfold matchAt
  rcases hd : dropPat ghPat s with _ | rest
  · rw [Option.none_bind]
    simp only [Option.isSome_none, Bool.false_eq_true, false_iff]
    rintro ⟨own, c, r, hs, -, -, -⟩
    rw [hs, show ghPat ++ own ++ '/' :: c :: r = ghPat ++ (own ++ '/' :: c :: r) by simp,
      dropPat_append] at hd
    simp at hd
  · rw [Option.some_bind, matchTail_isSome_iff]
    constructor
    · rintro ⟨own, c, r, hs, hown, hsl, hc⟩
      refine ⟨own, c, r, ?_, hown, hsl, hc⟩
      rw [dropPat_eq_append hd, hs]
      simp
    · rintro ⟨own, c, r, hs, hown, hsl, hc⟩
      refine ⟨own, c, r, ?_, hown, hsl, hc⟩
      have hsp := dropPat_eq_append hd
      rw [hs, List.append_assoc] at hsp
      exact (List.append_cancel_left hsp).symm

theorem searchGh_isSome_iff (s : List Char) :
    (searchGh s).isSome = true ↔
      ∃ l own c r, s = l ++ ghPat ++ own ++ '/' :: c :: r ∧ own ≠ [] ∧
        (∀ ch ∈ own, ch ≠ '/') ∧ c ≠ '/' := by
  induction s with
  | nil =>
    simp only [searchGh, Option.isSome_none, Bool.false_eq_true, false_iff]
    rintro ⟨l, own, c, r, h, -, -, -⟩
    have hgh : ghPat.length = 11 := by decide
    have hlen := congrArg List.length h
    simp only [List.length_nil, List.length_append, List.length_cons] at hlen
    rw [hgh] at hlen
    omega
  | cons a s2 ih =>
    have hunf : searchGh (a :: s2) = (matchAt (a :: s2)).or (searchGh s2) := rfl
    rw [hunf, Option.isSome_or, Bool.or_eq_true, ih, matchAt_isSome_iff]
    constructor
    · rintro (⟨own, c, r, hs, hown, hsl, hc⟩ | ⟨l, own, c, r, hs, hown, hsl, hc⟩)
      · exact ⟨[], own, c, r, by simpa using hs, hown, hsl, hc⟩
      · exact ⟨a :: l, own, c, r, by simp [hs], hown, hsl, hc⟩
    · rintro ⟨l, own, c, r, hs, hown, hsl, hc⟩
      cases l with
      | nil =>
        left
        exact ⟨own, c, r, by simpa using hs, hown, hsl, hc⟩
      | cons b l2 =>
        right
        rw [List.cons_append] at hs
        injection hs with h1 h2
        exact ⟨l2, own, c, r, h2, hown, hsl, hc⟩

/-- C8 (amended): `fetch_github_repo` extracts an owner/repo pair exactly
when the URL, after deleting **every** occurrence of the substring `.git`
(not only a suffix), contains `github.com/` followed by a nonempty
slash-free owner segment, a slash, and at least one further non-slash
character — anything before or after that portion is ignored.  Otherwise
it fails with the invalid-URL error. -/
theorem extract_owner_repo_iff (repo_url : String)
    (treeResp : Except Unit (List TreeItem)) (fetch : String → FileOutcome) :
    ((extractOwnerRepo repo_url).isSome = true ↔
      ∃ l own c r, removeGit repo_url.data = l ++ ghPat ++ own ++ '/' :: c :: r ∧
        own ≠ [] ∧ (∀ ch ∈ own, ch ≠ '/') ∧ c ≠ '/') ∧
    (extractOwnerRepo repo_url = none →
      fetch_github_repo repo_url treeResp fetch =
        .error "Failed to fetch repository: Invalid GitHub repository URL") := by
  constructor
  · rw [← searchGh_isSome_iff]
    unfold extractOwnerRepo
    rcases searchGh (removeGit repo_url.data) with _ | ⟨o, r⟩ <;> simp
  · intro hnone
    simp [fetch_github_repo, hnone]

/-- C8 witness: the amended characterization instantiated at a concrete
well-formed repository URL. -/
theorem extract_owner_repo_iff_witness :
    ((extractOwnerRepo "https://github.com/octocat/Hello-World").isSome = true ↔
      ∃ l own c r,
        removeGit "https://github.com/octocat/Hello-World".data =
          l ++ ghPat ++ own ++ '/' :: c :: r ∧
        own ≠ [] ∧ (∀ ch ∈ own, ch ≠ '/') ∧ c ≠ '/') ∧
    (extractOwnerRepo "https://github.com/octocat/Hello-World" = none →
      fetch_github_repo "https://github.com/octocat/Hello-World" (.error ())
          (fun _ => .fail) =
        .error "Failed to fetch repository: Invalid GitHub repository URL") :=
  extract_owner_repo_iff "https://github.com/octocat/Hello-World" (.error ())
    (fun _ => .fail)

/-! The shape the claim asserts, modelled from the spec: "a pattern
matching a hosting-provider URL shape (`host/owner/repo`, optional
`.git` suffix)".  The URL — possibly after removing one final `.git` —
must end in `github.com/<owner>/<repo>` with `owner` and `repo` nonempty
and slash-free; anything (such as a scheme) may precede the host. -/

/-- Modelled from the spec: does the string from this position read
`github.com/<owner>/<repo>` to its very end? -/
def shapeAt (s : List Char) : Bool :=
  match dropPat ghPat s with
  | none => false
  | some rest =>
    match rest.dropWhile (fun c => c ≠ '/') with
    | [] => false
    | _ :: r2 =>
      !(rest.takeWhile (fun c => c ≠ '/')).isEmpty &&
        (!r2.isEmpty && r2.all (fun c => c ≠ '/'))

/-- Modelled from the spec: the claimed shape holds somewhere in the
string (allowing a scheme before the host). -/
def shapeSearch : List Char → Bool
  | [] => false
  | c :: rest => shapeAt (c :: rest) || shapeSearch rest

/-- Modelled from the spec: strip one optional final `.git`. -/
def dropGitSuffix (s : List Char) : List Char :=
  if s.reverse.take 4 = ['t', 'i', 'g', '.'] then (s.reverse.drop 4).reverse else s

/-- Modelled from the spec: the URL matches the claimed hosting-provider
shape `host/owner/repo` with an optional `.git` suffix. -/
def claimShape (url : String) : Bool := shapeSearch (dropGitSuffix url.data)

/-- C8 (counterexample): the code accepts URLs the claimed shape
rejects.  `https://github.com/a/b/c` has a trailing path segment, and in
`github.git.com/a/b` the host only contains `github.com` after the
interior `.git` is deleted; neither matches `host/owner/repo` with an
optional `.git` suffix, yet the fetcher extracts `("a", "b")` from both. -/
theorem url_shape_counterexample :
    extractOwnerRepo "https://github.com/a/b/c" = some ("a", "b") ∧
    claimShape "https://github.com/a/b/c" = false ∧
    extractOwnerRepo "github.git.com/a/b" = some ("a", "b") ∧
    claimShape "github.git.com/a/b" = false :=
  ⟨rfl, rfl, rfl, rfl⟩

/-! ## C1: shape and content of the generated flashcards -/

theorem upper_files_ne_architecture (s : String) :
    strUpper s ++ " Files" ≠ "Architecture" := by
  intro h
  have hd : (strUpper s).data ++ " Files".data = "Architecture".data := by
    rw [← String.data_append, h]
  have hrev := congrArg List.reverse hd
  rw [List.reverse_append] at hrev
  have h6 : " Files".data.reverse = ['s', 'e', 'l', 'i', 'F', ' '] := by decide
  have hA : "Architecture".data.reverse =
      ['e', 'r', 'u', 't', 'c', 'e', 't', 'i', 'h', 'c', 'r', 'A'] := by decide
  rw [h6, hA] at hrev
  have hh := congrArg List.head? hrev
  simp only [List.cons_append, List.head?_cons, Option.some.injEq] at hh
  exact absurd hh (by decide)

theorem foldl_block_eq_flatMap (gs : List (String × List SourceFile))
    (acc : List Flashcard) :
    gs.foldl (fun acc g => (acc ++ [archCard g.1 g.2]) ++ (g.2.take 3).map (fileCard g.1)) acc =
      acc ++ gs.flatMap (fun g => archCard g.1 g.2 :: (g.2.take 3).map (fileCard g.1)) := by
  induction gs generalizing acc with
  | nil => simp
  | cons g gs ih =>
    rw [List.foldl_cons, ih, List.flatMap_cons]
    simp

theorem groupFiles_snd_ne_nil (files : List SourceFile) :
    ∀ g ∈ groupFiles files, g.2 ≠ [] := by
  have key : ∀ (fs : List SourceFile) (acc : List (String × List SourceFile)),
      (∀ g ∈ acc, g.2 ≠ []) → ∀ g ∈ fs.foldl addToGroups acc, g.2 ≠ [] := by
    intro fs
    induction fs with
    | nil => intro acc h; simpa using h
    | cons f fs ih =>
      intro acc h
      rw [List.foldl_cons]
      apply ih
      intro g hg
      unfold addToGroups at hg
      by_cases hc : acc.any (fun g => g.1 = f.language) = true
      · rw [if_pos hc] at hg
        rcases List.mem_map.mp hg with ⟨g0, hg0, rfl⟩
        by_cases he : g0.1 = f.language
        · simp [he]
        · simpa [he] using h g0 hg0
      · rw [if_neg hc] at hg
        rcases List.mem_append.mp hg with hg | hg
        · exact h g hg
        · rcases List.mem_singleton.mp hg with rfl
          simp
  exact key files [] (by simp)

theorem countP_arch_block (g : String × List SourceFile) :
    (archCard g.1 g.2 :: (g.2.take 3).map (fileCard g.1)).countP
      (fun c => c.category == "Architecture") = 1 := by
  have h0 : ((g.2.take 3).map (fileCard g.1)).countP
      (fun c => c.category == "Architecture") = 0 := by
    rw [List.countP_eq_zero]
    intro a ha
    rcases List.mem_map.mp ha with ⟨f, -, rfl⟩
    simpa [fileCard] using upper_files_ne_architecture g.1
  have harch : ((archCard g.1 g.2).category == "Architecture") = true := by
    simp [archCard]
  rw [List.countP_cons, h0, harch]
  simp

theorem countP_flatMap_blocks (gs : List (String × List SourceFile)) :
    (gs.flatMap (fun g => archCard g.1 g.2 :: (g.2.take 3).map (fileCard g.1))).countP
      (fun c => c.category == "Architecture") = gs.length := by
  induction gs with
  | nil => rfl
  | cons g gs ih =>
    rw [List.flatMap_cons, List.countP_append, ih, countP_arch_block g,
      List.length_cons]
    omega

theorem joinComma_infix (names : List String) (x : String) (hx : x ∈ names) :
    ∃ l r, (joinComma names).data = l ++ x.data ++ r := by
  induction names with
  | nil => cases hx
  | cons y ys ih =>
    cases ys with
    | nil =>
      rcases List.mem_singleton.mp hx with rfl
      exact ⟨[], [], by simp [joinComma]⟩
    | cons z zs =>
      rcases List.mem_cons.mp hx with rfl | hx2
      · refine ⟨[], (", " ++ joinComma (z :: zs)).data, ?_⟩
        simp [joinComma, String.data_append]
      · rcases ih hx2 with ⟨l, r, hlr⟩
        refine ⟨(y ++ ", ").data ++ l, r, ?_⟩
        simp [joinComma, String.data_append, hlr]

/-- What C1 states about the generator, over the partition of the files
by language: the output is, group by group in first-seen language order,
exactly one `Architecture`/`Medium` card — whose back mentions the
upper-cased language, the number of files in the group and the base name
of each of the group's first 3 files, and whose snippet is the first 200
characters of the group's first file — followed by one `<LANG> Files`/
`Easy` card per file for the group's first 3 files, with the first 300
characters of that file as snippet. -/
def analyzeClaim (files : List SourceFile) : Prop :=
  analyze_with_ai files =
    (groupFiles files).flatMap
      (fun g => archCard g.1 g.2 :: (g.2.take 3).map (fileCard g.1)) ∧
  (analyze_with_ai files).countP (fun c => c.category == "Architecture") =
    (groupFiles files).length ∧
  ∀ g ∈ groupFiles files,
    (∃ f0 rest, g.2 = f0 :: rest ∧
      (archCard g.1 g.2).code_snippet = some (strTake f0.content 200) ∧
      (archCard g.1 g.2).file_path = some f0.path) ∧
    (archCard g.1 g.2).category = "Architecture" ∧
    (archCard g.1 g.2).difficulty = "Medium" ∧
    (∃ l r, ((archCard g.1 g.2).back).data = l ++ (strUpper g.1).data ++ r) ∧
    (∃ l r, ((archCard g.1 g.2).back).data = l ++ (toString g.2.length).data ++ r) ∧
    (∀ f ∈ g.2.take 3, ∃ l r,
      ((archCard g.1 g.2).back).data = l ++ (baseName f).data ++ r) ∧
    (∀ f ∈ g.2.take 3,
      (fileCard g.1 f).category = strUpper g.1 ++ " Files" ∧
      (fileCard g.1 f).difficulty = "Easy" ∧
      (fileCard g.1 f).code_snippet = some (strTake f.content 300) ∧
      (fileCard g.1 f).file_path = some f.path)

/-- C1: for every non-empty list of fetched files the default analysis
step produces exactly the card sequence the specification describes. -/
theorem analyze_with_ai_meets_claim (files : List SourceFile)
    (hne : files ≠ []) : analyzeClaim files := by
  have hflat : analyze_with_ai files =
      (groupFiles files).flatMap
        (fun g => archCard g.1 g.2 :: (g.2.take 3).map (fileCard g.1)) := by
    unfold analyze_with_ai
    rw [foldl_block_eq_flatMap]
    rfl
  refine ⟨hflat, ?_, ?_⟩
  · rw [hflat, countP_flatMap_blocks]
  · intro g hg
    have hne2 := groupFiles_snd_ne_nil files g hg
    obtain ⟨f0, rest, hg2⟩ : ∃ f0 rest, g.2 = f0 :: rest := by
      cases hgg : g.2 with
      | nil => exact absurd hgg hne2
      | cons a b => exact ⟨a, b, rfl⟩
    refine ⟨⟨f0, rest, hg2, by simp [archCard, hg2], by simp [archCard, hg2]⟩,
        rfl, rfl, ?_, ?_, ?_, ?_⟩
    · refine ⟨"This application uses ".data,
        (" with " ++ toString g.2.length ++
          " files. Key components include: " ++
          joinComma ((g.2.take 3).map baseName)).data, ?_⟩
      simp [archCard, String.data_append]
    · refine ⟨("This application uses " ++ strUpper g.1 ++ " with ").data,
        (" files. Key components include: " ++
          joinComma ((g.2.take 3).map baseName)).data, ?_⟩
      simp [archCard, String.data_append]
    · intro f hf
      have hmem : baseName f ∈ (g.2.take 3).map baseName :=
        List.mem_map.mpr ⟨f, hf, rfl⟩
      rcases joinComma_infix _ _ hmem with ⟨l, r, hlr⟩
      rw [List.map_take] at hlr
      refine ⟨("This application uses " ++ strUpper g.1 ++ " with " ++
        toString g.2.length ++ " files. Key components include: ").data ++ l, r, ?_⟩
      simp [archCard, String.data_append, hlr]
    · intro f hf
      exact ⟨rfl, rfl, rfl, rfl⟩

/-- C1 witness: a one-file repository. -/
theorem analyze_with_ai_meets_claim_witness :
    ([⟨"src/a.py", "print(1)", "py"⟩] : List SourceFile) ≠ [] ∧
      analyzeClaim [⟨"src/a.py", "print(1)", "py"⟩] :=
  ⟨by decide, analyze_with_ai_meets_claim _ (by decide)⟩

end RepoHub
